import Mathlib

/-!
# GoBittorrentClient: handshake codec, piece bounds, piece download loop, assembly

A shallow embedding of `connection/connection.go` and `download/download.go`.

* Go `byte` is `Fin 256`; `[20]byte` is a list of bytes of length 20; a Go
  `string` is the list of its bytes.
* Go `int` is a two's complement integer of 32 or 64 bits. The piece bounds are
  computed with `wrapInt`, which reduces each result to that range; the width
  is the parameter `bits`. The counters of the piece loop stay between small
  constants and `pw.length`, hence are plain `Int`.
* An `io.Reader` is the finite list of bytes still to be read; reading past its
  end is an error.
* A Go run-time panic is the `panic` constructor of `Result`.
-/

namespace GoBittorrentClient

/-! ## Bytes, slices, errors -/

/-- A Go byte. -/
abbrev Byte := Fin 256

/-- A Go array of type [20]byte. -/
abbrev Bytes20 := { l : List Byte // l.length = 20 }

/-- Conversion byte(n) of a non-negative Go int: keeps the low eight bits. -/
def toByte (n : Nat) : Byte := ⟨n % 256, Nat.mod_lt n (by decide)⟩

/-- The bytes of a Go string literal (ASCII). -/
def stringBytes (s : String) : List Byte := s.toList.map (fun c => toByte c.toNat)

/-- Error values returned by the functions of the program. -/
inductive Error where
  | EOF
  | ErrUnexpectedEOF
  | timeout
  | writeFailed
  | pstrlenZero
  | infoHashMismatch (expected got : List Byte)
  | integrityFailed (index : Int)
  | parse (reason : String)
deriving DecidableEq, Repr

/-- Outcome of a Go call that may panic at run time. -/
inductive Result (α : Type) where
  | panic : Result α
  | ret : α → Result α
deriving DecidableEq, Repr

/-- Go builtin copy(dst, src): overwrites the first min(len dst, len src)
elements of dst with those of src; the length of dst is unchanged. -/
def goCopy (dst src : List Byte) : List Byte :=
  src.take dst.length ++ dst.drop src.length

/-- The statement copy(buf[off:], src) for an offset off ≤ len(buf). -/
def copyAt (buf : List Byte) (off : Nat) (src : List Byte) : List Byte :=
  buf.take off ++ goCopy (buf.drop off) src

/-- The statement copy(a[:], src) for a fresh zeroed array a of type [20]byte. -/
def copy20 (src : List Byte) : Bytes20 :=
  ⟨goCopy (List.replicate 20 0) src, by
    simp only [goCopy, List.length_append, List.length_take, List.length_drop,
      List.length_replicate]
    omega⟩

/-- Standard library io.ReadFull(r, buf) with len(buf) = n on a reader holding
the bytes r: the n bytes read and the rest of the reader, or an error when fewer
than n bytes remain. -/
def ReadFull (r : List Byte) (n : Nat) : Except Error (List Byte × List Byte) :=
  if n ≤ r.length then .ok (r.take n, r.drop n)
  else if r.length = 0 then .error Error.EOF
  else .error Error.ErrUnexpectedEOF

/-! ## connection.go: handshake -/

/-- The struct Handshake. -/
structure Handshake where
  Pstr : List Byte
  InfoHash : Bytes20
  PeerID : Bytes20
deriving DecidableEq

/-- The protocol string written by Start. -/
def protocolName : List Byte := stringBytes "BitTorrent protocol"

/-- The handshake value built in Start (connection.go lines 56-60). -/
def startHandshake (peerID infoHash : Bytes20) : Handshake :=
  { Pstr := protocolName, InfoHash := infoHash, PeerID := peerID }

/-- Method Handshake.Serialize (connection.go lines 102-113). -/
def Handshake.Serialize (h : Handshake) : List Byte :=
  let pstrlen := h.Pstr.length
  let bufLen := 49 + pstrlen
  let buf : List Byte := List.replicate bufLen 0
  let buf := buf.set 0 (toByte pstrlen)
  let buf := copyAt buf 1 h.Pstr
  let buf := copyAt buf (1 + pstrlen + 8) h.InfoHash.val
  let buf := copyAt buf (1 + pstrlen + 8 + 20) h.PeerID.val
  buf

/-- Function ReadHandshake (connection.go lines 115-146): the decoded handshake
together with the unread rest of the reader, or the error. -/
def ReadHandshake (r : List Byte) : Except Error (Handshake × List Byte) :=
  match ReadFull r 1 with
  | .error err => .error err
  | .ok (lengthBuf, r1) =>
    let pstrlen := (lengthBuf.headD 0).val
    if pstrlen = 0 then .error Error.pstrlenZero
    else
      match ReadFull r1 (48 + pstrlen) with
      | .error err => .error err
      | .ok (handshakeBuf, r2) =>
        let infoHash := copy20 ((handshakeBuf.take (pstrlen + 8 + 20)).drop (pstrlen + 8))
        let peerID := copy20 (handshakeBuf.drop (pstrlen + 8 + 20))
        .ok ({ Pstr := handshakeBuf.take pstrlen, InfoHash := infoHash, PeerID := peerID }, r2)

/-- A net.Conn as seen by DoHandshake: the error returned by conn.Write (none for
a successful write) and the bytes the remote sends. -/
structure Conn where
  writeErr : Option Error
  inbound : List Byte

/-- Method Handshake.DoHandshake (connection.go lines 82-100). -/
def Handshake.DoHandshake (h : Handshake) (conn : Conn) : Except Error Handshake :=
  match conn.writeErr with
  | some err => .error err
  | none =>
    match ReadHandshake conn.inbound with
    | .error err => .error err
    | .ok (res, _) =>
      if res.InfoHash.val ≠ h.InfoHash.val then
        .error (Error.infoHashMismatch res.InfoHash.val h.InfoHash.val)
      else .ok res

/-! ## The packages message and bitfield -/

/-- A peer message that is not a keep-alive: its id and its payload. -/
structure Message where
  ID : Byte
  Payload : List Byte
deriving DecidableEq

/-- The message ids (the const block of download.go, lines 17-27). -/
def MsgChoke : Byte := 0
def MsgUnchoke : Byte := 1
def MsgInterested : Byte := 2
def MsgNotInterested : Byte := 3
def MsgHave : Byte := 4
def MsgBitfield : Byte := 5
def MsgRequest : Byte := 6
def MsgPiece : Byte := 7
def MsgCancel : Byte := 8

/-- What Client.Read hands to its caller: the message pointer (none is nil) and
the error (none is nil). The keep-alive is the pair (nil, nil). -/
abbrev ReadResult := Option Message × Option Error

/-- Big-endian value of a byte string (binary.BigEndian.Uint32 on four bytes). -/
def bigEndian (b : List Byte) : Nat := b.foldl (fun acc x => acc * 256 + x.val) 0

/-- Modelled from the spec: message.ParseHave, whose package is not among the
sources. The payload length must equal 4; the result is the big-endian piece
index. On a rejected message the index is the zero value. -/
def ParseHave (msg : Message) : Int × Option Error :=
  if msg.Payload.length = 4 then ((bigEndian msg.Payload : Nat), none)
  else (0, some (Error.parse "have payload"))

/-- Modelled from the spec: message.ParsePiece, whose package is not among the
sources. The payload length must be at least 8; index and begin are big-endian
uint32; the rest is the block. The index must equal the expected one and
begin + len(block) must not exceed len(buf); then the block is copied to
buf[begin .. begin+len(block)] and the number of bytes written is returned. A
rejected message writes nothing and reports 0 bytes. -/
def ParsePiece (index : Int) (buf : List Byte) (msg : Message) : Int × List Byte × Option Error :=
  if msg.Payload.length < 8 then (0, buf, some (Error.parse "piece payload too short"))
  else
    let parsedIndex : Int := (bigEndian (msg.Payload.take 4) : Nat)
    if parsedIndex ≠ index then (0, buf, some (Error.parse "piece index"))
    else
      let begin := bigEndian ((msg.Payload.drop 4).take 4)
      let data := msg.Payload.drop 8
      if begin + data.length > buf.length then (0, buf, some (Error.parse "piece bounds"))
      else ((data.length : Nat), copyAt buf begin data, none)

/-- Modelled from the spec: Bitfield.HasPiece, whose package is not among the
sources. Bit i is bit (7 - i mod 8) of byte i div 8; an index out of range
tests false. -/
def HasPiece (bf : List Byte) (index : Int) : Bool :=
  if index < 0 then false
  else
    match bf[index.toNat / 8]? with
    | none => false
    | some b => (b.val / 2 ^ (7 - index.toNat % 8)) % 2 = 1

/-- Modelled from the spec: Bitfield.SetPiece, whose package is not among the
sources. Sets bit (7 - i mod 8) of byte i div 8; an index out of range is a
no-op. -/
def SetPiece (bf : List Byte) (index : Int) : List Byte :=
  if index < 0 then bf
  else
    match bf[index.toNat / 8]? with
    | none => bf
    | some b => bf.set (index.toNat / 8) (toByte (b.val ||| 2 ^ (7 - index.toNat % 8)))

/-! ## download.go -/

/-- The fields of connection.Client used by the piece loop. -/
structure Client where
  Choked : Bool
  Bitfield : List Byte
deriving DecidableEq

/-- The struct Torrent (the fields Peers and Name play no role here). -/
structure Torrent where
  PeerID : Bytes20
  InfoHash : Bytes20
  PieceHashes : List Bytes20
  PieceLength : Int
  Length : Int

structure pieceWork where
  index : Int
  hash : Bytes20
  length : Int
deriving DecidableEq

structure pieceResult where
  index : Int
  buf : List Byte
deriving DecidableEq

structure pieceProgress where
  index : Int
  client : Client
  buf : List Byte
  downloaded : Int
  requested : Int
  backlog : Int
deriving DecidableEq

def MaxBlockSize : Int := 16384

def MaxBacklog : Int := 5

/-- Method pieceProgress.readMessage (download.go lines 71-87), given what
state.client.Read() returns. The error of Read is discarded; msg.ID on a nil
message is a nil-pointer dereference. The result is the new state and the
returned error. -/
def pieceProgress.readMessage (state : pieceProgress) (rd : ReadResult) :
    Result (pieceProgress × Option Error) :=
  match rd.1 with
  | none => .panic
  | some msg =>
    if msg.ID = MsgUnchoke then
      .ret ({ state with client := { state.client with Choked := false } }, none)
    else if msg.ID = MsgChoke then
      .ret ({ state with client := { state.client with Choked := true } }, none)
    else if msg.ID = MsgHave then
      let index := (ParseHave msg).1
      .ret ({ state with client :=
        { state.client with Bitfield := SetPiece state.client.Bitfield index } }, none)
    else if msg.ID = MsgPiece then
      let r := ParsePiece state.index state.buf msg
      .ret ({ state with buf := r.2.1, downloaded := state.downloaded + r.1,
                         backlog := state.backlog - 1 }, none)
    else .ret (state, none)

/-- Go int arithmetic on a platform whose int has the given number of bits (32 or
64): the exact result x reduced to the two's complement range
[-2^(bits-1), 2^(bits-1)). -/
def wrapInt (bits : Nat) (x : Int) : Int :=
  (x + 2 ^ (bits - 1)) % 2 ^ bits - 2 ^ (bits - 1)

/-- Method Torrent.calculateBoundsForPiece (download.go lines 160-167), with int
of the given number of bits. -/
def Torrent.calculateBoundsForPiece (t : Torrent) (bits : Nat) (index : Int) : Int × Int :=
  let begin := wrapInt bits (index * t.PieceLength)
  let end1 := wrapInt bits (begin + t.PieceLength)
  let end2 := if end1 > t.Length then t.Length else end1
  (begin, end2)

/-- The tickets put on the work channel by Download (download.go lines 133-137),
in the order they are sent. -/
def Torrent.tickets (t : Torrent) (bits : Nat) : List pieceWork :=
  t.PieceHashes.mapIdx (fun index hash =>
    let be := t.calculateBoundsForPiece bits index
    let length := wrapInt bits (be.2 - be.1)
    { index := index, hash := hash, length := length })

/-- The copy step of the coordinator (download.go lines 148-149) on the output
buffer buf: copy(buf[begin:end], res.buf). The slice expression panics unless
0 ≤ begin ≤ end ≤ len(buf). -/
def Torrent.assemble (t : Torrent) (bits : Nat) (buf : List Byte) (res : pieceResult) :
    Result (List Byte) :=
  let be := t.calculateBoundsForPiece bits res.index
  if 0 ≤ be.1 ∧ be.1 ≤ be.2 ∧ be.2 ≤ buf.length then
    let b := be.1.toNat
    let e := be.2.toNat
    .ret (buf.take b ++ goCopy ((buf.take e).drop b) res.buf ++ buf.drop e)
  else .panic

/-- The arguments of one call of Client.SendRequest. -/
structure Request where
  index : Int
  begin : Int
  length : Int
deriving DecidableEq, Repr

/-- How a run of attemptDownloadPiece on a finite list of inbound messages ends:
waiting in Read for the next message, returned with the buffer, returned with an
error, or panicked. -/
inductive Outcome where
  | blocked
  | returned (buf : List Byte)
  | failed (err : Error)
  | panicked
deriving DecidableEq

/-- The configuration of attemptDownloadPiece at the end of a run: the progress
state, the log of the requests that SendRequest sent without error, the log of
the messages dispatched by readMessage, and the outcome. -/
structure Run where
  state : pieceProgress
  sent : List Request
  received : List Message
  outcome : Outcome

/-- The inner loop of attemptDownloadPiece (download.go lines 183-196). The k-th
call of SendRequest of the attempt returns the error sendErr k. Each iteration
raises backlog by one, so MaxBacklog - backlog iterations suffice; the fuel is
that number. -/
def sendRequests (sendErr : Nat → Option Error) (pw : pieceWork) :
    Nat → pieceProgress → List Request → pieceProgress × List Request × Option Error
  | 0, state, sent => (state, sent, none)
  | fuel + 1, state, sent =>
    if state.backlog < MaxBacklog ∧ state.requested < pw.length then
      let blockSize :=
        if pw.length - state.requested < MaxBlockSize then pw.length - state.requested
        else MaxBlockSize
      match sendErr sent.length with
      | some err => (state, sent, some err)
      | none =>
        sendRequests sendErr pw fuel
          { state with backlog := state.backlog + 1, requested := state.requested + blockSize }
          (sent ++ [{ index := pw.index, begin := state.requested, length := blockSize }])
    else (state, sent, none)

/-- The request phase of one pass of the outer loop (download.go lines 182-197). -/
def requestPhase (sendErr : Nat → Option Error) (pw : pieceWork) (state : pieceProgress)
    (sent : List Request) : pieceProgress × List Request × Option Error :=
  if !state.client.Choked then
    sendRequests sendErr pw (MaxBacklog - state.backlog).toNat state sent
  else (state, sent, none)

/-- The outer loop of attemptDownloadPiece (download.go lines 180-205), fed with
the results of the successive calls of Read. -/
def downloadLoop (sendErr : Nat → Option Error) (pw : pieceWork) :
    List ReadResult → pieceProgress → List Request → List Message → Run
  | inbound, state, sent, received =>
    if state.downloaded < pw.length then
      match requestPhase sendErr pw state sent with
      | (state1, sent1, some err) => ⟨state1, sent1, received, .failed err⟩
      | (state1, sent1, none) =>
        match inbound with
        | [] => ⟨state1, sent1, received, .blocked⟩
        | rd :: rest =>
          match state1.readMessage rd with
          | .panic => ⟨state1, sent1, received, .panicked⟩
          | .ret (state2, some err) => ⟨state2, sent1, received ++ rd.1.toList, .failed err⟩
          | .ret (state2, none) =>
            downloadLoop sendErr pw rest state2 sent1 (received ++ rd.1.toList)
    else ⟨state, sent, received, .returned state.buf⟩

/-- Function attemptDownloadPiece (download.go lines 169-206). The buffer
allocation make([]byte, pw.length) panics on a negative length. -/
def attemptDownloadPiece (sendErr : Nat → Option Error) (c : Client) (pw : pieceWork)
    (inbound : List ReadResult) : Run :=
  let state : pieceProgress :=
    { index := pw.index, client := c, buf := List.replicate pw.length.toNat 0,
      downloaded := 0, requested := 0, backlog := 0 }
  if pw.length < 0 then ⟨state, [], [], .panicked⟩
  else downloadLoop sendErr pw inbound state [] []

/-- Function checkIntegrity (download.go lines 208-214); sha1Sum is the standard
library function sha1.Sum. The result none is the nil error. -/
def checkIntegrity (sha1Sum : List Byte → Bytes20) (pw : pieceWork) (buf : List Byte) :
    Option Error :=
  let hash := sha1Sum buf
  if hash.val ≠ pw.hash.val then some (Error.integrityFailed pw.index) else none

/-- How one pass of the worker loop ends. -/
inductive Next where
  | nextTicket
  | exit
  | panicked
  | blocked
deriving DecidableEq

/-- The effects of one pass of the worker loop: the ticket put back on the work
channel, the result sent on the results channel, the index announced with
SendHave, and how the pass ends. -/
structure WorkerPass where
  requeued : Option pieceWork
  emitted : Option pieceResult
  have1 : Option Int
  next : Next
deriving DecidableEq

/-- One pass of the loop of Torrent.worker for the ticket pw (download.go lines
101-124). -/
def workerPass (sha1Sum : List Byte → Bytes20) (sendErr : Nat → Option Error) (c : Client)
    (inbound : List ReadResult) (pw : pieceWork) : WorkerPass :=
  if !HasPiece c.Bitfield pw.index then ⟨some pw, none, none, .nextTicket⟩
  else
    match (attemptDownloadPiece sendErr c pw inbound).outcome with
    | .failed _ => ⟨some pw, none, none, .exit⟩
    | .panicked => ⟨none, none, none, .panicked⟩
    | .blocked => ⟨none, none, none, .blocked⟩
    | .returned buf =>
      match checkIntegrity sha1Sum pw buf with
      | some _ => ⟨some pw, none, none, .nextTicket⟩
      | none => ⟨none, some ⟨pw.index, buf⟩, some pw.index, .nextTicket⟩

/-! ## Specification predicates -/

/-- The request log rs continues the block schedule of the ticket pw from
offset b and ends at offset e: each request is for pw.index, begins where the
previous one ended, starts before pw.length and asks for
min(MaxBlockSize, pw.length - begin) bytes. -/
def scheduled (pw : pieceWork) : Int → List Request → Int → Prop
  | b, [], e => b = e
  | b, r :: rs, e =>
    r.index = pw.index ∧ r.begin = b ∧ b < pw.length ∧
    r.length = min MaxBlockSize (pw.length - b) ∧ scheduled pw (b + r.length) rs e

/-- Number of piece messages in a log of dispatched messages. -/
def pieceCount (received : List Message) : Nat :=
  received.countP (fun m => m.ID = MsgPiece)

/-- The loop invariant of attemptDownloadPiece: the request log follows the
block schedule up to the counter requested, which does not exceed pw.length;
the backlog counter is at most MaxBacklog and equals the number of requests sent
minus the number of piece messages dispatched. -/
def LoopInv (pw : pieceWork) (state : pieceProgress) (sent : List Request)
    (received : List Message) : Prop :=
  scheduled pw 0 sent state.requested ∧ state.requested ≤ pw.length ∧
  state.backlog ≤ MaxBacklog ∧
  state.backlog = (sent.length : Int) - (pieceCount received : Int)

/-! ## Theorems -/

theorem protocolName_eq : protocolName =
    [66, 105, 116, 84, 111, 114, 114, 101, 110, 116, 32, 112, 114, 111, 116, 111, 99, 111, 108] := by
  decide

theorem goCopy_exact (B C src : List Byte) (hB : B.length = src.length) :
    goCopy (B ++ C) src = src ++ C := by
  unfold goCopy
  rw [List.take_of_length_le (by simp; omega), ← hB, List.drop_left]

theorem copyAt_exact (A B C src : List Byte) (off : Nat) (hA : A.length = off)
    (hB : B.length = src.length) : copyAt (A ++ (B ++ C)) off src = A ++ (src ++ C) := by
  unfold copyAt
  rw [List.take_left' hA, List.drop_left' hA, goCopy_exact B C src hB]

theorem Serialize_eq (h : Handshake) :
    h.Serialize = toByte h.Pstr.length ::
      (h.Pstr ++ (List.replicate 8 0 ++ (h.InfoHash.val ++ h.PeerID.val))) := by
  have e : List.replicate (49 + h.Pstr.length) (0 : Byte)
      = [0] ++ (List.replicate h.Pstr.length 0 ++ (List.replicate 8 0 ++
          (List.replicate 20 0 ++ List.replicate 20 0))) := by
    have hn : 49 + h.Pstr.length = 1 + (h.Pstr.length + (8 + (20 + 20))) := by omega
    rw [hn, List.replicate_add, List.replicate_add, List.replicate_add, List.replicate_add]
    rfl
  unfold Handshake.Serialize
  simp only [e]
  rw [List.singleton_append, List.set_cons_zero, ← List.singleton_append]
  rw [copyAt_exact [toByte h.Pstr.length] (List.replicate h.Pstr.length 0) _ h.Pstr 1 rfl (by simp)]
  have h1 : [toByte h.Pstr.length] ++ (h.Pstr ++ (List.replicate 8 0 ++
      (List.replicate 20 0 ++ List.replicate 20 0)))
      = ([toByte h.Pstr.length] ++ h.Pstr ++ List.replicate 8 0) ++
        (List.replicate 20 0 ++ List.replicate 20 0) := by simp
  rw [h1, copyAt_exact _ (List.replicate 20 0) _ h.InfoHash.val _ (by simp; omega)
    (by simp [h.InfoHash.property])]
  have h2 : ([toByte h.Pstr.length] ++ h.Pstr ++ List.replicate 8 0) ++
      (h.InfoHash.val ++ List.replicate 20 0)
      = ([toByte h.Pstr.length] ++ h.Pstr ++ List.replicate 8 0 ++ h.InfoHash.val) ++
        (List.replicate 20 0 ++ []) := by simp
  rw [h2, copyAt_exact _ (List.replicate 20 0) _ h.PeerID.val _
    (by simp [h.InfoHash.property]; omega) (by simp [h.PeerID.property])]
  simp

theorem copy20_val (x : Bytes20) : copy20 x.val = x := by
  apply Subtype.ext
  show goCopy (List.replicate 20 0) x.val = x.val
  have := goCopy_exact (List.replicate 20 0) [] x.val (by simp [x.property])
  simpa using this

theorem ReadHandshake_Serialize (h : Handshake) (h0 : 0 < h.Pstr.length)
    (h1 : h.Pstr.length < 256) : ReadHandshake h.Serialize = .ok (h, []) := by
  obtain ⟨pstr, ih, pid⟩ := h
  simp only at h0 h1
  have hih := ih.property
  have hpid := pid.property
  rw [Serialize_eq]
  simp only
  have hval : (toByte pstr.length).val = pstr.length := by
    simp [toByte, Nat.mod_eq_of_lt h1]
  have hlen : (pstr ++ (List.replicate 8 (0 : Byte) ++ (ih.val ++ pid.val))).length
      = 48 + pstr.length := by
    simp [hih, hpid]; omega
  have hrf : ReadFull (pstr ++ (List.replicate 8 (0 : Byte) ++ (ih.val ++ pid.val)))
      (48 + pstr.length)
      = .ok (pstr ++ (List.replicate 8 (0 : Byte) ++ (ih.val ++ pid.val)), []) := by
    unfold ReadFull
    rw [if_pos (by omega), List.take_of_length_le (by omega), List.drop_of_length_le (by omega)]
  have hA : (pstr ++ List.replicate 8 (0 : Byte)).length = pstr.length + 8 := by simp
  have hB : (pstr ++ List.replicate 8 (0 : Byte) ++ ih.val).length = pstr.length + 8 + 20 := by
    simp [hih]
  have e1 : pstr ++ (List.replicate 8 (0 : Byte) ++ (ih.val ++ pid.val))
      = (pstr ++ List.replicate 8 (0 : Byte) ++ ih.val) ++ pid.val := by simp
  have e2 : pstr ++ List.replicate 8 (0 : Byte) ++ ih.val
      = (pstr ++ List.replicate 8 (0 : Byte)) ++ ih.val := rfl
  have t1 : List.drop (pstr.length + 8)
      (List.take (pstr.length + 8 + 20) (pstr ++ (List.replicate 8 (0 : Byte) ++ (ih.val ++ pid.val))))
      = ih.val := by
    rw [e1, List.take_left' hB, e2, List.drop_left' hA]
  have t2 : List.drop (pstr.length + 8 + 20)
      (pstr ++ (List.replicate 8 (0 : Byte) ++ (ih.val ++ pid.val))) = pid.val := by
    rw [e1, List.drop_left' hB]
  have t3 : List.take pstr.length (pstr ++ (List.replicate 8 (0 : Byte) ++ (ih.val ++ pid.val)))
      = pstr := List.take_left' rfl
  unfold ReadHandshake
  have hrf1 : ReadFull (toByte pstr.length ::
      (pstr ++ (List.replicate 8 (0 : Byte) ++ (ih.val ++ pid.val)))) 1
      = .ok ([toByte pstr.length],
          pstr ++ (List.replicate 8 (0 : Byte) ++ (ih.val ++ pid.val))) := by
    simp [ReadFull]
  rw [hrf1]
  simp only [List.headD_cons, hval]
  rw [if_neg (by omega), hrf]
  simp only [t1, t2, t3, copy20_val]

/-- C1: the handshake that Start builds for any 20-byte info hash and peer id
(Pstr "BitTorrent protocol") is decoded by ReadHandshake from exactly the bytes
of its Serialize without error, and the decoded Pstr, InfoHash and PeerID equal
those of the handshake. -/
theorem handshake_round_trip (infoHash peerID : Bytes20) :
    ∃ res rest, ReadHandshake (startHandshake peerID infoHash).Serialize = .ok (res, rest) ∧
      res.Pstr = stringBytes "BitTorrent protocol" ∧ res.InfoHash = infoHash ∧
      res.PeerID = peerID ∧ rest = [] := by
  refine ⟨startHandshake peerID infoHash, [], ?_, rfl, rfl, rfl, rfl⟩
  apply ReadHandshake_Serialize
  · simp [startHandshake, protocolName_eq]
  · simp [startHandshake, protocolName_eq]

/-- C8: for every info hash and peer id, Serialize of the handshake built by
Start (Pstr "BitTorrent protocol") is 68 bytes long; byte 0 is 19, bytes 1..19
are the ASCII bytes of the protocol string, bytes 20..27 are zero, bytes 28..47
are the info hash and bytes 48..67 are the peer id. -/
theorem handshake_wire_layout (infoHash peerID : Bytes20) :
    ((startHandshake peerID infoHash).Serialize).length = 68 ∧
    ((startHandshake peerID infoHash).Serialize)[0]? = some 19 ∧
    (((startHandshake peerID infoHash).Serialize).drop 1).take 19
      = [66, 105, 116, 84, 111, 114, 114, 101, 110, 116, 32, 112, 114, 111, 116, 111, 99,
         111, 108] ∧
    (((startHandshake peerID infoHash).Serialize).drop 20).take 8 = [0, 0, 0, 0, 0, 0, 0, 0] ∧
    (((startHandshake peerID infoHash).Serialize).drop 28).take 20 = infoHash.val ∧
    (((startHandshake peerID infoHash).Serialize).drop 48).take 20 = peerID.val := by
  have hih := infoHash.property
  have hpid := peerID.property
  rw [Serialize_eq]
  simp only [startHandshake, protocolName_eq]
  refine ⟨by simp [hih, hpid], by simp [toByte], by simp, by simp [List.replicate], ?_, ?_⟩
  · simp [List.replicate]
  · simp [List.replicate]

/-- C7: when the local handshake has been written and ReadHandshake decodes the
bytes sent by the remote into res, DoHandshake returns an error exactly when
res.InfoHash differs from h.InfoHash, and otherwise returns res itself,
whatever its Pstr and PeerID are. -/
theorem DoHandshake_info_hash_gate (h : Handshake) (conn : Conn) (res : Handshake)
    (rest : List Byte) (hw : conn.writeErr = none)
    (hr : ReadHandshake conn.inbound = .ok (res, rest)) :
    ((∃ err, h.DoHandshake conn = .error err) ↔ res.InfoHash ≠ h.InfoHash) ∧
    (res.InfoHash = h.InfoHash → h.DoHandshake conn = .ok res) := by
  unfold Handshake.DoHandshake
  rw [hw, hr]
  simp only
  by_cases heq : res.InfoHash = h.InfoHash
  · simp [heq]
  · have hv : res.InfoHash.val ≠ h.InfoHash.val := fun hc => heq (Subtype.ext hc)
    simp [heq, hv]

/-! ### Piece bounds and assembly -/

theorem ceil_bounds (L P n : Int) (hP : 0 < P) (hn : n = ⌈(L : ℚ) / (P : ℚ)⌉) :
    (n - 1) * P < L ∧ L ≤ n * P := by
  have hP' : (0 : ℚ) < (P : ℚ) := by exact_mod_cast hP
  obtain ⟨h1, h2⟩ := Int.ceil_eq_iff.mp hn.symm
  rw [lt_div_iff₀ hP'] at h1
  rw [div_le_iff₀ hP'] at h2
  constructor
  · exact_mod_cast h1
  · exact_mod_cast h2

theorem wrapInt_of_range (bits : Nat) (hbits : 0 < bits) (x : Int)
    (hlo : -(2 ^ (bits - 1)) ≤ x) (hhi : x < 2 ^ (bits - 1)) : wrapInt bits x = x := by
  have hpow : (2 : Int) ^ bits = 2 * 2 ^ (bits - 1) := by
    have hb : bits = (bits - 1) + 1 := by omega
    conv_lhs => rw [hb, pow_succ]
    ring
  unfold wrapInt
  rw [hpow, Int.emod_eq_of_lt (by omega) (by omega)]
  omega

theorem bounds_of_index (t : Torrent) (bits : Nat) (hbits : 0 < bits) (n : Int)
    (hP : 0 < t.PieceLength)
    (hfit : t.Length + t.PieceLength < 2 ^ (bits - 1))
    (h1 : (n - 1) * t.PieceLength < t.Length) (h2 : t.Length ≤ n * t.PieceLength)
    (i : Int) (hi0 : 0 ≤ i) (hi : i < n) :
    (t.calculateBoundsForPiece bits i).1 = i * t.PieceLength ∧
    (i + 1 < n → (t.calculateBoundsForPiece bits i).2 = i * t.PieceLength + t.PieceLength) ∧
    (i + 1 = n → (t.calculateBoundsForPiece bits i).2 = t.Length) ∧
    0 ≤ (t.calculateBoundsForPiece bits i).1 ∧
    (t.calculateBoundsForPiece bits i).1 < (t.calculateBoundsForPiece bits i).2 ∧
    (t.calculateBoundsForPiece bits i).2 ≤ t.Length := by
  have hmono : i * t.PieceLength ≤ (n - 1) * t.PieceLength :=
    Int.mul_le_mul_of_nonneg_right (by omega) (le_of_lt hP)
  have hnn : 0 ≤ i * t.PieceLength := Int.mul_nonneg hi0 (le_of_lt hP)
  have hsub : (n - 1) * t.PieceLength = n * t.PieceLength - t.PieceLength := by ring
  have hM : (0 : Int) < 2 ^ (bits - 1) := by positivity
  have w1 : wrapInt bits (i * t.PieceLength) = i * t.PieceLength :=
    wrapInt_of_range bits hbits _ (by omega) (by omega)
  have w2 : wrapInt bits (i * t.PieceLength + t.PieceLength)
      = i * t.PieceLength + t.PieceLength :=
    wrapInt_of_range bits hbits _ (by omega) (by omega)
  simp only [Torrent.calculateBoundsForPiece, w1, w2]
  refine ⟨trivial, ?_, ?_, hnn, ?_, ?_⟩
  · intro hlt
    have : (i + 1) * t.PieceLength ≤ (n - 1) * t.PieceLength :=
      Int.mul_le_mul_of_nonneg_right (by omega) (le_of_lt hP)
    have e : (i + 1) * t.PieceLength = i * t.PieceLength + t.PieceLength := by ring
    rw [if_neg (by omega)]
  · intro heq
    have e : i = n - 1 := by omega
    subst e
    split_ifs with hc
    · rfl
    · omega
  · split_ifs with hc <;> omega
  · split_ifs with hc <;> omega

/-- C2 (as amended): for a torrent with PieceLength > 0, Length > 0,
Length + PieceLength not above the largest int (2^(bits-1) - 1, for int of 32 or
64 bits) and len(PieceHashes) = n = ceil(Length / PieceLength), and every index
i < n, calculateBoundsForPiece(i) has begin = i * PieceLength, and the i-th
ticket enqueued by Download has length end - begin, which is PieceLength when
i < n - 1 and Length - (n - 1) * PieceLength when i = n - 1; that last value is
positive and at most PieceLength. -/
theorem piece_lengths (t : Torrent) (bits : Nat) (hbits : 0 < bits)
    (hP : 0 < t.PieceLength) (_hL : 0 < t.Length)
    (hfit : t.Length + t.PieceLength < 2 ^ (bits - 1))
    (hn : (t.PieceHashes.length : Int) = ⌈(t.Length : ℚ) / (t.PieceLength : ℚ)⌉)
    (i : Nat) (hi : i < t.PieceHashes.length) :
    (t.calculateBoundsForPiece bits i).1 = i * t.PieceLength ∧
    (∃ pw, (t.tickets bits)[i]? = some pw ∧ pw.index = i ∧
      pw.length = (t.calculateBoundsForPiece bits i).2 - (t.calculateBoundsForPiece bits i).1 ∧
      (i + 1 < t.PieceHashes.length → pw.length = t.PieceLength) ∧
      (i + 1 = t.PieceHashes.length →
        pw.length = t.Length - ((t.PieceHashes.length : Int) - 1) * t.PieceLength)) ∧
    0 < t.Length - ((t.PieceHashes.length : Int) - 1) * t.PieceLength ∧
    t.Length - ((t.PieceHashes.length : Int) - 1) * t.PieceLength ≤ t.PieceLength := by
  obtain ⟨h1, h2⟩ := ceil_bounds t.Length t.PieceLength _ hP hn
  obtain ⟨hb, hmid, hlast, hb0, hbe, heL⟩ :=
    bounds_of_index t bits hbits _ hP hfit h1 h2 (i : Int) (by omega) (by omega)
  have hsub : ((t.PieceHashes.length : Int) - 1) * t.PieceLength
      = (t.PieceHashes.length : Int) * t.PieceLength - t.PieceLength := by ring
  have hw : wrapInt bits
      ((t.calculateBoundsForPiece bits i).2 - (t.calculateBoundsForPiece bits i).1)
      = (t.calculateBoundsForPiece bits i).2 - (t.calculateBoundsForPiece bits i).1 :=
    wrapInt_of_range bits hbits _ (by omega) (by omega)
  refine ⟨hb, ⟨⟨(i : Int), t.PieceHashes[i],
    (t.calculateBoundsForPiece bits i).2 - (t.calculateBoundsForPiece bits i).1⟩,
    ?_, rfl, rfl, ?_, ?_⟩, by omega, by omega⟩
  · simp [Torrent.tickets, List.getElem?_eq_getElem hi, hw]
  · intro hlt
    show (t.calculateBoundsForPiece bits i).2 - (t.calculateBoundsForPiece bits i).1
      = t.PieceLength
    rw [hmid (by omega), hb]
    omega
  · intro heq
    show (t.calculateBoundsForPiece bits i).2 - (t.calculateBoundsForPiece bits i).1 = _
    rw [hlast (by omega), hb]
    have : (i : Int) = (t.PieceHashes.length : Int) - 1 := by omega
    rw [this]

theorem goCopy_length (dst src : List Byte) : (goCopy dst src).length = dst.length := by
  simp only [goCopy, List.length_append, List.length_take, List.length_drop]
  omega

theorem split3 (buf : List Byte) (b e : Nat) (hbe : b ≤ e) :
    buf = buf.take b ++ ((buf.take e).drop b ++ buf.drop e) := by
  have h1 : buf.take b = (buf.take e).take b := by
    rw [List.take_take, Nat.min_eq_left hbe]
  rw [h1, ← List.append_assoc, List.take_append_drop, List.take_append_drop]

theorem splice_outside (A M N C : List Byte) (hMN : N.length = M.length) (j : Nat)
    (hj : j < A.length ∨ A.length + M.length ≤ j) :
    (A ++ (N ++ C))[j]? = (A ++ (M ++ C))[j]? := by
  rcases hj with hj | hj
  · rw [List.getElem?_append_left hj, List.getElem?_append_left hj]
  · rw [List.getElem?_append_right (by omega), List.getElem?_append_right (by omega),
      List.getElem?_append_right (by omega), List.getElem?_append_right (by omega), hMN]

/-- C10 (as amended): for a torrent with PieceLength > 0,
Length + PieceLength not above the largest int (2^(bits-1) - 1, for int of 32 or
64 bits) and len(PieceHashes) = ceil(Length / PieceLength), a result (i, bytes)
with i < len(PieceHashes) and any output buffer of length Length, the copy step
of the coordinator does not panic, leaves the output length equal to Length,
leaves every byte at a position outside [begin(i), end(i)) unchanged and, when
len(bytes) = end(i) - begin(i), makes output[begin(i)..end(i)) equal to bytes. -/
theorem assemble_frame (t : Torrent) (bits : Nat) (hbits : 0 < bits)
    (hP : 0 < t.PieceLength)
    (hfit : t.Length + t.PieceLength < 2 ^ (bits - 1))
    (hn : (t.PieceHashes.length : Int) = ⌈(t.Length : ℚ) / (t.PieceLength : ℚ)⌉)
    (i : Nat) (hi : i < t.PieceHashes.length) (bytes buf : List Byte)
    (hbuf : (buf.length : Int) = t.Length) :
    ∃ out, t.assemble bits buf ⟨i, bytes⟩ = .ret out ∧
      (out.length : Int) = t.Length ∧
      (∀ j : Nat, ((j : Int) < (t.calculateBoundsForPiece bits i).1 ∨
          (t.calculateBoundsForPiece bits i).2 ≤ (j : Int)) → out[j]? = buf[j]?) ∧
      ((bytes.length : Int)
          = (t.calculateBoundsForPiece bits i).2 - (t.calculateBoundsForPiece bits i).1 →
        (out.take (t.calculateBoundsForPiece bits i).2.toNat).drop
          (t.calculateBoundsForPiece bits i).1.toNat = bytes) := by
  obtain ⟨h1, h2⟩ := ceil_bounds t.Length t.PieceLength _ hP hn
  obtain ⟨-, -, -, hb0, hbe, heL⟩ :=
    bounds_of_index t bits hbits _ hP hfit h1 h2 (i : Int) (by omega) (by omega)
  simp only [Torrent.assemble]
  generalize t.calculateBoundsForPiece bits i = be at hb0 hbe heL ⊢
  obtain ⟨bI, eI⟩ := be
  simp only at hb0 hbe heL ⊢
  obtain ⟨b, rfl⟩ := Int.eq_ofNat_of_zero_le hb0
  obtain ⟨e, rfl⟩ := Int.eq_ofNat_of_zero_le (le_trans hb0 (le_of_lt hbe))
  have hbe' : b < e := by omega
  have heL' : e ≤ buf.length := by omega
  have hM : ((buf.take e).drop b).length = e - b := by
    simp only [List.length_drop, List.length_take]; omega
  have hN : (goCopy ((buf.take e).drop b) bytes).length = e - b := by
    rw [goCopy_length, hM]
  have hA : (buf.take b).length = b := by
    simp only [List.length_take]; omega
  refine ⟨buf.take b ++ goCopy ((buf.take e).drop b) bytes ++ buf.drop e, ?_, ?_, ?_, ?_⟩
  · rw [if_pos ⟨hb0, le_of_lt hbe, by omega⟩]
    simp only [Int.toNat_ofNat]
  · simp only [List.length_append, hA, hN, List.length_drop]
    omega
  · intro j hj
    rw [List.append_assoc]
    conv_rhs => rw [split3 buf b e (le_of_lt hbe')]
    apply splice_outside _ _ _ _ (by rw [hN, hM])
    rw [hA, hM]
    omega
  · intro hlen
    have hlen' : bytes.length = e - b := by omega
    have hgc : goCopy ((buf.take e).drop b) bytes = bytes := by
      have := goCopy_exact ((buf.take e).drop b) [] bytes (by rw [hM, hlen'])
      simpa using this
    rw [hgc]
    simp only [Int.toNat_ofNat]
    have hAB : (buf.take b ++ bytes).length = e := by
      rw [List.length_append, hA, hlen']; omega
    rw [List.take_left' hAB, List.drop_left' hA]

/-! ### The piece download loop -/

theorem scheduled_snoc (pw : pieceWork) (rs : List Request) (b e : Int)
    (h : scheduled pw b rs e) (he : e < pw.length) :
    scheduled pw b (rs ++ [⟨pw.index, e, min MaxBlockSize (pw.length - e)⟩])
      (e + min MaxBlockSize (pw.length - e)) := by
  induction rs generalizing b with
  | nil =>
    simp only [scheduled] at h
    subst h
    simp [scheduled, he]
  | cons r rs ih =>
    obtain ⟨h1, h2, h3, h4, h5⟩ := h
    exact ⟨h1, h2, h3, h4, ih _ h5⟩

theorem scheduled_props (pw : pieceWork) (rs : List Request) (b e : Int)
    (h : scheduled pw b rs e) :
    b ≤ e ∧ (b ≤ pw.length → e ≤ pw.length) ∧
    (∀ r, rs[0]? = some r → r.begin = b) ∧
    (∀ (k : Nat) (r r1 : Request), rs[k]? = some r → rs[k + 1]? = some r1 →
      r1.begin = r.begin + r.length) ∧
    (∀ (k : Nat) (r : Request), rs[k]? = some r →
      r.index = pw.index ∧ b ≤ r.begin ∧ r.begin < pw.length ∧
      r.length = min MaxBlockSize (pw.length - r.begin)) := by
  induction rs generalizing b with
  | nil =>
    simp only [scheduled] at h
    subst h
    simp
  | cons r rs ih =>
    obtain ⟨h1, h2, h3, h4, h5⟩ := h
    obtain ⟨i1, i2, i3, i4, i5⟩ := ih _ h5
    have hpos : 0 < r.length := by
      rw [h4]; simp only [MaxBlockSize]; omega
    have hle : b + r.length ≤ pw.length := by
      rw [h4]; simp only [MaxBlockSize]; omega
    refine ⟨by omega, fun _ => i2 hle, ?_, ?_, ?_⟩
    · intro r0 hr0
      simp only [List.getElem?_cons_zero, Option.some.injEq] at hr0
      rw [← hr0, h2]
    · intro k x y hx hy
      cases k with
      | zero =>
        simp only [List.getElem?_cons_zero, Option.some.injEq] at hx
        simp only [List.getElem?_cons_succ] at hy
        rw [i3 y hy, ← hx, h2]
      | succ k =>
        simp only [List.getElem?_cons_succ] at hx hy
        exact i4 k x y hx hy
    · intro k x hx
      cases k with
      | zero =>
        simp only [List.getElem?_cons_zero, Option.some.injEq] at hx
        subst hx
        exact ⟨h1, by omega, by omega, by rw [h2]; exact h4⟩
      | succ k =>
        simp only [List.getElem?_cons_succ] at hx
        obtain ⟨j1, j2, j3, j4⟩ := i5 k x hx
        exact ⟨j1, by omega, j3, j4⟩

theorem blockSize_eq (a b : Int) :
    (if a - b < MaxBlockSize then a - b else MaxBlockSize) = min MaxBlockSize (a - b) := by
  split_ifs with hb <;> omega

theorem sendRequests_succ (sendErr : Nat → Option Error) (pw : pieceWork) (fuel : Nat)
    (state : pieceProgress) (sent : List Request) :
    sendRequests sendErr pw (fuel + 1) state sent =
      if state.backlog < MaxBacklog ∧ state.requested < pw.length then
        match sendErr sent.length with
        | some err => (state, sent, some err)
        | none =>
          sendRequests sendErr pw fuel
            { state with backlog := state.backlog + 1,
                         requested := state.requested +
                           min MaxBlockSize (pw.length - state.requested) }
            (sent ++ [{ index := pw.index, begin := state.requested,
                        length := min MaxBlockSize (pw.length - state.requested) }])
      else (state, sent, none) := by
  simp only [sendRequests, blockSize_eq]

theorem sendRequests_inv (sendErr : Nat → Option Error) (pw : pieceWork) (fuel : Nat)
    (state : pieceProgress) (sent : List Request) (received : List Message)
    (h : LoopInv pw state sent received) :
    LoopInv pw (sendRequests sendErr pw fuel state sent).1
      (sendRequests sendErr pw fuel state sent).2.1 received := by
  induction fuel generalizing state sent with
  | zero => exact h
  | succ fuel ih =>
    rw [sendRequests_succ]
    by_cases hc : state.backlog < MaxBacklog ∧ state.requested < pw.length
    · rw [if_pos hc]
      cases hs : sendErr sent.length with
      | some err => exact h
      | none =>
        simp only
        apply ih
        obtain ⟨h1, h2, h3, h4⟩ := h
        refine ⟨scheduled_snoc pw sent 0 _ h1 hc.2, ?_, ?_, ?_⟩
        · simp only [MaxBlockSize]; omega
        · simp only [MaxBacklog] at hc ⊢; omega
        · simp only [List.length_append, List.length_singleton]; push_cast; omega
    · rw [if_neg hc]
      exact h

theorem requestPhase_inv (sendErr : Nat → Option Error) (pw : pieceWork)
    (state : pieceProgress) (sent : List Request) (received : List Message)
    (h : LoopInv pw state sent received) :
    LoopInv pw (requestPhase sendErr pw state sent).1
      (requestPhase sendErr pw state sent).2.1 received := by
  unfold requestPhase
  split_ifs
  · exact sendRequests_inv sendErr pw _ state sent received h
  · exact h

theorem readMessage_ret (state state2 : pieceProgress) (rd : ReadResult) (e : Option Error)
    (h : state.readMessage rd = .ret (state2, e)) :
    e = none ∧ state2.requested = state.requested ∧
    ∃ msg, rd.1 = some msg ∧
      state2.backlog = state.backlog - (if msg.ID = MsgPiece then 1 else 0) := by
  unfold pieceProgress.readMessage at h
  cases hm : rd.1 with
  | none => rw [hm] at h; simp at h
  | some msg =>
    rw [hm] at h
    simp only at h
    have hU : MsgUnchoke ≠ MsgPiece := by decide
    have hC : MsgChoke ≠ MsgPiece := by decide
    have hH : MsgHave ≠ MsgPiece := by decide
    split_ifs at h with h1 h2 h3 h4 <;>
      simp only [Result.ret.injEq, Prod.mk.injEq] at h <;>
      obtain ⟨hs, he⟩ := h <;> subst hs <;>
      refine ⟨he.symm, rfl, msg, rfl, ?_⟩
    · rw [if_neg (by rw [h1]; exact hU)]; simp
    · rw [if_neg (by rw [h2]; exact hC)]; simp
    · rw [if_neg (by rw [h3]; exact hH)]; simp
    · rw [if_pos h4]
    · rw [if_neg h4]; simp

theorem readMessage_inv (pw : pieceWork) (state state2 : pieceProgress) (rd : ReadResult)
    (e : Option Error) (sent : List Request) (received : List Message)
    (h : LoopInv pw state sent received) (hr : state.readMessage rd = .ret (state2, e)) :
    LoopInv pw state2 sent (received ++ rd.1.toList) := by
  obtain ⟨-, hreq, msg, hmsg, hback⟩ := readMessage_ret state state2 rd e hr
  obtain ⟨h1, h2, h3, h4⟩ := h
  refine ⟨by rw [hreq]; exact h1, by rw [hreq]; exact h2, ?_, ?_⟩
  · rw [hback]; split_ifs <;> omega
  · rw [hback, hmsg, h4]
    by_cases hp : msg.ID = MsgPiece
    · simp only [Option.toList, pieceCount, List.countP_append, List.countP_cons,
        List.countP_nil, hp, if_true, decide_True]
      push_cast
      omega
    · simp only [Option.toList, pieceCount, List.countP_append, List.countP_cons,
        List.countP_nil, hp, if_false, decide_False]
      simp

theorem downloadLoop_inv (sendErr : Nat → Option Error) (pw : pieceWork)
    (inbound : List ReadResult) (state : pieceProgress) (sent : List Request)
    (received : List Message) (h : LoopInv pw state sent received) :
    LoopInv pw (downloadLoop sendErr pw inbound state sent received).state
      (downloadLoop sendErr pw inbound state sent received).sent
      (downloadLoop sendErr pw inbound state sent received).received := by
  induction inbound generalizing state sent received with
  | nil =>
    have hp := requestPhase_inv sendErr pw state sent received h
    unfold downloadLoop
    split_ifs with hd
    · split
      · next st1 sent1 err heq => rw [heq] at hp; exact hp
      · next st1 sent1 heq => rw [heq] at hp; exact hp
    · exact h
  | cons rd rest ih =>
    have hp := requestPhase_inv sendErr pw state sent received h
    unfold downloadLoop
    split_ifs with hd
    · split
      · next st1 sent1 err heq => rw [heq] at hp; exact hp
      · next st1 sent1 heq =>
        rw [heq] at hp
        simp only at hp ⊢
        split
        · exact hp
        · next st2 err hrm => exact readMessage_inv pw st1 st2 rd _ sent1 received hp hrm
        · next st2 hrm =>
          exact ih st2 sent1 _ (readMessage_inv pw st1 st2 rd _ sent1 received hp hrm)
    · exact h

theorem sendRequests_noop (sendErr : Nat → Option Error) (pw : pieceWork) (fuel : Nat)
    (state : pieceProgress) (sent : List Request) (h : pw.length ≤ state.requested) :
    sendRequests sendErr pw fuel state sent = (state, sent, none) := by
  cases fuel with
  | zero => rfl
  | succ fuel => rw [sendRequests_succ, if_neg (by omega)]

theorem requestPhase_noop (sendErr : Nat → Option Error) (pw : pieceWork)
    (state : pieceProgress) (sent : List Request) (h : pw.length ≤ state.requested) :
    requestPhase sendErr pw state sent = (state, sent, none) := by
  unfold requestPhase
  split_ifs
  · exact sendRequests_noop sendErr pw _ state sent h
  · rfl

/-- The fuel of the inner loop is enough: it stops on a failed send or because
its condition is false. -/
theorem sendRequests_exit (sendErr : Nat → Option Error) (pw : pieceWork) (fuel : Nat)
    (state : pieceProgress) (sent : List Request)
    (hf : (MaxBacklog - state.backlog).toNat ≤ fuel) :
    (sendRequests sendErr pw fuel state sent).2.2 ≠ none ∨
    ¬ ((sendRequests sendErr pw fuel state sent).1.backlog < MaxBacklog ∧
       (sendRequests sendErr pw fuel state sent).1.requested < pw.length) := by
  induction fuel generalizing state sent with
  | zero =>
    right
    simp only [sendRequests]
    omega
  | succ fuel ih =>
    rw [sendRequests_succ]
    by_cases hc : state.backlog < MaxBacklog ∧ state.requested < pw.length
    · rw [if_pos hc]
      cases hs : sendErr sent.length with
      | some err => left; simp
      | none =>
        simp only
        apply ih
        simp only
        omega
    · rw [if_neg hc]
      right
      exact hc

/-- The request phase of a pass ends on a failed send or with the condition of the
inner loop false. -/
theorem requestPhase_exit (sendErr : Nat → Option Error) (pw : pieceWork)
    (state : pieceProgress) (sent : List Request) (hc : state.client.Choked = false) :
    (requestPhase sendErr pw state sent).2.2 ≠ none ∨
    ¬ ((requestPhase sendErr pw state sent).1.backlog < MaxBacklog ∧
       (requestPhase sendErr pw state sent).1.requested < pw.length) := by
  unfold requestPhase
  rw [if_pos (by simp [hc])]
  exact sendRequests_exit sendErr pw _ state sent (le_refl _)

theorem downloadLoop_sent_const (sendErr : Nat → Option Error) (pw : pieceWork)
    (inbound : List ReadResult) (state : pieceProgress) (sent : List Request)
    (received : List Message) (h : pw.length ≤ state.requested) :
    (downloadLoop sendErr pw inbound state sent received).sent = sent := by
  induction inbound generalizing state received with
  | nil =>
    unfold downloadLoop
    rw [requestPhase_noop sendErr pw state sent h]
    split_ifs <;> rfl
  | cons rd rest ih =>
    unfold downloadLoop
    rw [requestPhase_noop sendErr pw state sent h]
    split_ifs with hd
    · simp only
      split
      · rfl
      · rfl
      · next st2 hrm =>
        apply ih
        rw [(readMessage_ret state st2 rd _ hrm).2.1]
        exact h
    · rfl

theorem downloadLoop_extend (sendErr : Nat → Option Error) (pw : pieceWork)
    (inbound more : List ReadResult) (state : pieceProgress) (sent : List Request)
    (received : List Message)
    (h : pw.length ≤ (downloadLoop sendErr pw inbound state sent received).state.requested) :
    (downloadLoop sendErr pw (inbound ++ more) state sent received).sent
      = (downloadLoop sendErr pw inbound state sent received).sent := by
  induction inbound generalizing state sent received with
  | nil =>
    cases more with
    | nil => rfl
    | cons rd rest =>
      simp only [List.nil_append]
      unfold downloadLoop at h ⊢
      split_ifs at h ⊢ with hd
      · split at h
        · next st1 sent1 err heq => rfl
        · next st1 sent1 heq =>
          simp only at h ⊢
          split
          · rfl
          · rfl
          · next st2 hrm =>
            apply downloadLoop_sent_const
            rw [(readMessage_ret st1 st2 rd _ hrm).2.1]
            exact h
      · rfl
  | cons rd rest ih =>
    simp only [List.cons_append]
    unfold downloadLoop at h ⊢
    split_ifs at h ⊢ with hd
    · split at h
      · next st1 sent1 err heq => rfl
      · next st1 sent1 heq =>
        simp only at h ⊢
        split at h
        · rfl
        · rfl
        · next st2 hrm => exact ih st2 sent1 _ h
    · rfl

theorem attemptDownloadPiece_inv (sendErr : Nat → Option Error) (c : Client) (pw : pieceWork)
    (inbound : List ReadResult) (hlen : 0 ≤ pw.length) :
    LoopInv pw (attemptDownloadPiece sendErr c pw inbound).state
      (attemptDownloadPiece sendErr c pw inbound).sent
      (attemptDownloadPiece sendErr c pw inbound).received := by
  unfold attemptDownloadPiece
  simp only
  rw [if_neg (by omega)]
  apply downloadLoop_inv
  refine ⟨rfl, hlen, ?_, ?_⟩
  · show (0 : Int) ≤ MaxBacklog
    decide
  · simp [pieceCount]

/-- C5: for a ticket with pw.length > 0, any client, any send results and any
inbound messages, the requests sent by attemptDownloadPiece are
request(pw.index, begin_k, len_k) with begin_0 = 0, begin_(k+1) = begin_k + len_k
and len_k = min(16384, pw.length - begin_k); each has 1 ≤ len_k ≤ 16384 and
begin_k + len_k ≤ pw.length; the counter requested never exceeds pw.length; and
once requested = pw.length no further inbound message makes it send a request. -/
theorem request_sizing (sendErr : Nat → Option Error) (c : Client) (pw : pieceWork)
    (inbound : List ReadResult) (hlen : 0 < pw.length) :
    (∀ r : Request, (attemptDownloadPiece sendErr c pw inbound).sent[0]? = some r →
      r.begin = 0) ∧
    (∀ (k : Nat) (r r1 : Request),
      (attemptDownloadPiece sendErr c pw inbound).sent[k]? = some r →
      (attemptDownloadPiece sendErr c pw inbound).sent[k + 1]? = some r1 →
      r1.begin = r.begin + r.length) ∧
    (∀ (k : Nat) (r : Request),
      (attemptDownloadPiece sendErr c pw inbound).sent[k]? = some r →
      r.index = pw.index ∧ r.length = min 16384 (pw.length - r.begin) ∧
      1 ≤ r.length ∧ r.length ≤ 16384 ∧ r.begin + r.length ≤ pw.length) ∧
    (attemptDownloadPiece sendErr c pw inbound).state.requested ≤ pw.length ∧
    (∀ more : List ReadResult,
      (attemptDownloadPiece sendErr c pw inbound).state.requested = pw.length →
      (attemptDownloadPiece sendErr c pw (inbound ++ more)).sent
        = (attemptDownloadPiece sendErr c pw inbound).sent) := by
  obtain ⟨hs, hreq, -, -⟩ := attemptDownloadPiece_inv sendErr c pw inbound (le_of_lt hlen)
  obtain ⟨-, -, p0, p1, p2⟩ := scheduled_props pw _ 0 _ hs
  refine ⟨p0, p1, ?_, hreq, ?_⟩
  · intro k r hr
    obtain ⟨q1, q2, q3, q4⟩ := p2 k r hr
    simp only [MaxBlockSize] at q4
    refine ⟨q1, q4, ?_, ?_, ?_⟩ <;> omega
  · intro more hfull
    have hnn : ¬ pw.length < 0 := by omega
    simp only [attemptDownloadPiece, if_neg hnn] at hfull ⊢
    exact downloadLoop_extend sendErr pw inbound more _ _ _ (le_of_eq hfull.symm)

/-- C5 witness: a 20000-byte ticket on a connection that starts choked and
receives unchoke yields request(0,0,16384) then request(0,16384,3616). -/
theorem request_sizing_witness :
    (0 : Int) < 20000 ∧
    (attemptDownloadPiece (fun _ => none) ⟨true, [128]⟩ ⟨0, copy20 [], 20000⟩
      [(some ⟨MsgUnchoke, []⟩, none)]).sent = [⟨0, 0, 16384⟩, ⟨0, 16384, 3616⟩] ∧
    (∀ (k : Nat) (r : Request),
      (attemptDownloadPiece (fun _ => none) ⟨true, [128]⟩ ⟨0, copy20 [], 20000⟩
        [(some ⟨MsgUnchoke, []⟩, none)]).sent[k]? = some r →
      r.index = 0 ∧ r.length = min 16384 (20000 - r.begin) ∧
      1 ≤ r.length ∧ r.length ≤ 16384 ∧ r.begin + r.length ≤ 20000) :=
  ⟨by decide, by decide,
    (request_sizing (fun _ => none) ⟨true, [128]⟩ ⟨0, copy20 [], 20000⟩
      [(some ⟨MsgUnchoke, []⟩, none)] (by decide)).2.2.1⟩

/-- C6: an unchoked connection and a ticket of 98304 bytes (index 0). After the
first five requests the peer sends one piece message with index 9. ParsePiece
rejects it and nothing is downloaded, yet readMessage decrements backlog, and
the next pass sends a sixth request: six requests are unanswered while the
counter shows 5. Likewise, on a choked connection with no request sent, one
unrequested piece block for a 4-byte ticket leaves the counter at -1. -/
theorem backlog_limit_exceeded :
    (attemptDownloadPiece (fun _ => none) ⟨false, [128]⟩ ⟨0, copy20 [], 98304⟩
      [(some ⟨MsgPiece, [0, 0, 0, 9, 0, 0, 0, 0, 170]⟩, none)]).sent
      = [⟨0, 0, 16384⟩, ⟨0, 16384, 16384⟩, ⟨0, 32768, 16384⟩, ⟨0, 49152, 16384⟩,
         ⟨0, 65536, 16384⟩, ⟨0, 81920, 16384⟩] ∧
    (attemptDownloadPiece (fun _ => none) ⟨false, [128]⟩ ⟨0, copy20 [], 98304⟩
      [(some ⟨MsgPiece, [0, 0, 0, 9, 0, 0, 0, 0, 170]⟩, none)]).state.downloaded = 0 ∧
    (attemptDownloadPiece (fun _ => none) ⟨false, [128]⟩ ⟨0, copy20 [], 98304⟩
      [(some ⟨MsgPiece, [0, 0, 0, 9, 0, 0, 0, 0, 170]⟩, none)]).state.backlog = 5 ∧
    (attemptDownloadPiece (fun _ => none) ⟨false, [128]⟩ ⟨0, copy20 [], 98304⟩
      [(some ⟨MsgPiece, [0, 0, 0, 9, 0, 0, 0, 0, 170]⟩, none)]).outcome = .blocked ∧
    (attemptDownloadPiece (fun _ => none) ⟨true, [128]⟩ ⟨0, copy20 [], 4⟩
      [(some ⟨MsgPiece, [0, 0, 0, 0, 0, 0, 0, 0, 170]⟩, none)]).sent = [] ∧
    (attemptDownloadPiece (fun _ => none) ⟨true, [128]⟩ ⟨0, copy20 [], 4⟩
      [(some ⟨MsgPiece, [0, 0, 0, 0, 0, 0, 0, 0, 170]⟩, none)]).state.backlog = -1 := by
  decide!

/-- C4: when Read returns the keep-alive value (a nil message with a nil error),
readMessage does not return: it panics on msg.ID; an attempt in progress that
reads a keep-alive ends in a panic. -/
theorem readMessage_keep_alive_panics (state : pieceProgress) :
    state.readMessage (none, none) = .panic ∧
    (attemptDownloadPiece (fun _ => none) ⟨false, [128]⟩ ⟨0, copy20 [], 16384⟩
      [(none, none)]).outcome = .panicked :=
  ⟨rfl, by decide⟩

/-- C3: when Read returns an error, readMessage never returns a non-nil error:
with the nil message that accompanies the error it panics on msg.ID, and with
any message it returns nil; an attempt in progress whose Read fails with EOF
ends in a panic, not in the result (nil, err). -/
theorem readMessage_discards_read_error (state : pieceProgress) (err : Error) :
    state.readMessage (none, some err) = .panic ∧
    (∀ (msg : Option Message) (state2 : pieceProgress) (e : Error),
      state.readMessage (msg, some err) ≠ .ret (state2, some e)) ∧
    (attemptDownloadPiece (fun _ => none) ⟨false, [128]⟩ ⟨0, copy20 [], 16384⟩
      [(none, some Error.EOF)]).outcome = .panicked := by
  refine ⟨rfl, ?_, by decide⟩
  intro msg state2 e hr
  have := (readMessage_ret state state2 _ _ hr).1
  simp at this

/-! ### Integrity check and the worker -/

theorem checkIntegrity_iff (sha1Sum : List Byte → Bytes20) (pw : pieceWork) (buf : List Byte) :
    checkIntegrity sha1Sum pw buf = none ↔ sha1Sum buf = pw.hash := by
  unfold checkIntegrity
  simp only
  constructor
  · intro h
    split_ifs at h with hc
    exact Subtype.ext (not_not.mp hc)
  · intro h
    rw [if_neg (by rw [h]; simp)]

/-- C9: for every ticket pw and every buffer buf, checkIntegrity(pw, buf) returns
nil exactly when sha1.Sum(buf) equals pw.hash. A pass of the worker loop sends a
pieceResult only for the buffer returned by attemptDownloadPiece, with index
pw.index, and only when checkIntegrity returned nil on it. When the peer has the
piece and attemptDownloadPiece returns buf: on a match the pass emits
(pw.index, buf); on a mismatch it puts pw back on the work channel, emits
nothing and goes on to the next ticket. -/
theorem verified_emission (sha1Sum : List Byte → Bytes20) (sendErr : Nat → Option Error)
    (c : Client) (inbound : List ReadResult) (pw : pieceWork) :
    (∀ buf : List Byte, checkIntegrity sha1Sum pw buf = none ↔ sha1Sum buf = pw.hash) ∧
    (∀ r : pieceResult, (workerPass sha1Sum sendErr c inbound pw).emitted = some r →
      r.index = pw.index ∧
      (attemptDownloadPiece sendErr c pw inbound).outcome = .returned r.buf ∧
      checkIntegrity sha1Sum pw r.buf = none) ∧
    (∀ buf : List Byte, HasPiece c.Bitfield pw.index = true →
      (attemptDownloadPiece sendErr c pw inbound).outcome = .returned buf →
      (sha1Sum buf = pw.hash →
        workerPass sha1Sum sendErr c inbound pw
          = ⟨none, some ⟨pw.index, buf⟩, some pw.index, .nextTicket⟩) ∧
      (sha1Sum buf ≠ pw.hash →
        workerPass sha1Sum sendErr c inbound pw = ⟨some pw, none, none, .nextTicket⟩)) := by
  refine ⟨fun buf => checkIntegrity_iff sha1Sum pw buf, ?_, ?_⟩
  · intro r hr
    unfold workerPass at hr
    split_ifs at hr with hhas
    split at hr
    · simp at hr
    · simp at hr
    · simp at hr
    · next buf hout =>
      split at hr
      · simp at hr
      · next hck =>
        simp only [Option.some.injEq] at hr
        subst hr
        exact ⟨rfl, hout, hck⟩
  · intro buf hhas hout
    unfold workerPass
    rw [if_neg (by simp [hhas]), hout]
    constructor
    · intro hm
      have hck := (checkIntegrity_iff sha1Sum pw buf).mpr hm
      simp only [hck]
    · intro hm
      cases hck : checkIntegrity sha1Sum pw buf with
      | none => exact absurd ((checkIntegrity_iff sha1Sum pw buf).mp hck) hm
      | some e => simp only [hck]

/-- C9 witness: a 2-byte ticket served by one piece message; the buffer [1, 2]
is emitted when the digest matches and the ticket is requeued when it does not
(the digest function here pads the buffer to 20 bytes). -/
theorem verified_emission_witness :
    (attemptDownloadPiece (fun _ => none) ⟨false, [128]⟩ ⟨0, copy20 [1, 2], 2⟩
      [(some ⟨MsgPiece, [0, 0, 0, 0, 0, 0, 0, 0, 1, 2]⟩, none)]).outcome = .returned [1, 2] ∧
    workerPass copy20 (fun _ => none) ⟨false, [128]⟩
      [(some ⟨MsgPiece, [0, 0, 0, 0, 0, 0, 0, 0, 1, 2]⟩, none)] ⟨0, copy20 [1, 2], 2⟩
      = ⟨none, some ⟨0, [1, 2]⟩, some 0, .nextTicket⟩ ∧
    workerPass copy20 (fun _ => none) ⟨false, [128]⟩
      [(some ⟨MsgPiece, [0, 0, 0, 0, 0, 0, 0, 0, 1, 2]⟩, none)] ⟨0, copy20 [9], 2⟩
      = ⟨some ⟨0, copy20 [9], 2⟩, none, none, .nextTicket⟩ :=
  ⟨by decide,
   ((verified_emission copy20 (fun _ => none) ⟨false, [128]⟩
      [(some ⟨MsgPiece, [0, 0, 0, 0, 0, 0, 0, 0, 1, 2]⟩, none)] ⟨0, copy20 [1, 2], 2⟩).2.2
      [1, 2] (by decide) (by decide)).1 (by decide),
   ((verified_emission copy20 (fun _ => none) ⟨false, [128]⟩
      [(some ⟨MsgPiece, [0, 0, 0, 0, 0, 0, 0, 0, 1, 2]⟩, none)] ⟨0, copy20 [9], 2⟩).2.2
      [1, 2] (by decide) (by decide)).2 (by decide)⟩

/-! ### Witnesses -/

/-- C7 witness: the remote answers with the handshake of peer id 1,0,...,0 for
the same info hash; DoHandshake returns the decoded handshake. -/
theorem DoHandshake_info_hash_gate_witness :
    (⟨none, (startHandshake (copy20 [1]) (copy20 [7])).Serialize⟩ : Conn).writeErr = none ∧
    ReadHandshake (⟨none, (startHandshake (copy20 [1]) (copy20 [7])).Serialize⟩ : Conn).inbound
      = .ok (startHandshake (copy20 [1]) (copy20 [7]), []) ∧
    (startHandshake (copy20 [2]) (copy20 [7])).DoHandshake
        ⟨none, (startHandshake (copy20 [1]) (copy20 [7])).Serialize⟩
      = .ok (startHandshake (copy20 [1]) (copy20 [7])) :=
  ⟨rfl, ReadHandshake_Serialize _ (by decide) (by decide),
   (DoHandshake_info_hash_gate (startHandshake (copy20 [2]) (copy20 [7]))
      ⟨none, (startHandshake (copy20 [1]) (copy20 [7])).Serialize⟩
      (startHandshake (copy20 [1]) (copy20 [7])) [] rfl
      (ReadHandshake_Serialize _ (by decide) (by decide))).2 rfl⟩

/-- A torrent of 6 bytes in pieces of 4 bytes: two pieces, the last of 2 bytes. -/
theorem ceil_six_four : ((2 : Nat) : Int) = ⌈((6 : Int) : ℚ) / ((4 : Int) : ℚ)⌉ := by
  symm
  rw [Int.ceil_eq_iff]
  norm_num

/-- C2 witness: with 64-bit int, Length 6 and PieceLength 4 give two tickets; the
last one, at index 1, begins at 4 and has length 2. -/
theorem piece_lengths_witness :
    (Torrent.calculateBoundsForPiece ⟨copy20 [], copy20 [], [copy20 [1], copy20 [2]], 4, 6⟩
      64 ((1 : Nat) : Int)).1 = ((1 : Nat) : Int) * 4 ∧
    (Torrent.tickets ⟨copy20 [], copy20 [], [copy20 [1], copy20 [2]], 4, 6⟩ 64)
      = [⟨0, copy20 [1], 4⟩, ⟨1, copy20 [2], 2⟩] :=
  ⟨(piece_lengths ⟨copy20 [], copy20 [], [copy20 [1], copy20 [2]], 4, 6⟩ 64 (by decide)
      (by decide) (by decide) (by decide) ceil_six_four 1 (by decide)).1,
   by decide⟩

/-- C2 counterexample: with 64-bit int, PieceLength = 2^62, Length = 2^63 - 1 and
two piece hashes (2 = ceil(Length / PieceLength)), begin + PieceLength wraps to
-2^63 for the last piece, the clamp does not fire, and the ticket enqueued for
index 1 has length 2^62 = PieceLength instead of
Length - (n - 1) * PieceLength = 2^62 - 1. -/
theorem piece_lengths_overflow :
    (0 : Int) < 4611686018427387904 ∧ (0 : Int) < 9223372036854775807 ∧
    (([copy20 [1], copy20 [2]] : List Bytes20).length : Int)
      = ⌈((9223372036854775807 : Int) : ℚ) / ((4611686018427387904 : Int) : ℚ)⌉ ∧
    Torrent.calculateBoundsForPiece
      ⟨copy20 [], copy20 [], [copy20 [1], copy20 [2]], 4611686018427387904,
        9223372036854775807⟩ 64 1
      = (4611686018427387904, -9223372036854775808) ∧
    Torrent.tickets
      ⟨copy20 [], copy20 [], [copy20 [1], copy20 [2]], 4611686018427387904,
        9223372036854775807⟩ 64
      = [⟨0, copy20 [1], 4611686018427387904⟩, ⟨1, copy20 [2], 4611686018427387904⟩] ∧
    (4611686018427387904 : Int)
      ≠ 9223372036854775807 - ((2 : Int) - 1) * 4611686018427387904 := by
  refine ⟨by decide, by decide, ?_, by decide, by decide, by decide⟩
  symm
  rw [Int.ceil_eq_iff]
  norm_num

/-- C10 witness: with 64-bit int, writing the result (1, [7, 8]) into a 6-byte
buffer of nines changes bytes 4 and 5 only. -/
theorem assemble_frame_witness :
    Torrent.assemble ⟨copy20 [], copy20 [], [copy20 [1], copy20 [2]], 4, 6⟩ 64
      [9, 9, 9, 9, 9, 9] ⟨1, [7, 8]⟩ = .ret [9, 9, 9, 9, 7, 8] ∧
    ∃ out, Torrent.assemble ⟨copy20 [], copy20 [], [copy20 [1], copy20 [2]], 4, 6⟩ 64
      [9, 9, 9, 9, 9, 9] ⟨((1 : Nat) : Int), [7, 8]⟩ = .ret out ∧ (out.length : Int) = 6 :=
  ⟨by decide,
   (assemble_frame ⟨copy20 [], copy20 [], [copy20 [1], copy20 [2]], 4, 6⟩ 64 (by decide)
      (by decide) (by decide) ceil_six_four 1 (by decide) [7, 8] [9, 9, 9, 9, 9, 9]
      (by decide)).imp (fun _ h => ⟨h.1, h.2.1⟩)⟩

/-- C10 counterexample: with 32-bit int, Length = 2147000000,
PieceLength = 2097152 and 1024 piece hashes (1024 = ceil(Length / PieceLength)),
the result for index 1023 has begin = 2145386496 and begin + PieceLength wraps
to -2^31, so the slice buf[begin:end] of the output buffer of length Length
panics. -/
theorem assemble_overflow_panics :
    (0 : Int) < 2097152 ∧
    ((List.replicate 1024 (copy20 [])).length : Int)
      = ⌈((2147000000 : Int) : ℚ) / ((2097152 : Int) : ℚ)⌉ ∧
    1023 < (List.replicate 1024 (copy20 [])).length ∧
    ((List.replicate 2147000000 (0 : Byte)).length : Int) = 2147000000 ∧
    Torrent.calculateBoundsForPiece
      ⟨copy20 [], copy20 [], List.replicate 1024 (copy20 []), 2097152, 2147000000⟩ 32
      ((1023 : Nat) : Int) = (2145386496, -2147483648) ∧
    Torrent.assemble
      ⟨copy20 [], copy20 [], List.replicate 1024 (copy20 []), 2097152, 2147000000⟩ 32
      (List.replicate 2147000000 0) ⟨((1023 : Nat) : Int), []⟩ = .panic := by
  have hb : Torrent.calculateBoundsForPiece
      ⟨copy20 [], copy20 [], List.replicate 1024 (copy20 []), 2097152, 2147000000⟩ 32
      ((1023 : Nat) : Int) = (2145386496, -2147483648) := by decide
  refine ⟨by decide, ?_, ?_, ?_, hb, ?_⟩
  · rw [List.length_replicate]
    symm
    rw [Int.ceil_eq_iff]
    norm_num
  · rw [List.length_replicate]
    decide
  · rw [List.length_replicate]
    rfl
  · unfold Torrent.assemble
    simp only [hb]
    rw [if_neg]
    intro h
    have := h.2.1
    omega

end GoBittorrentClient
